import Mathlib

/-!
Verification model of the `writer` package of kylemcc/cwlog.

The Go source (src/writer/writer.go) is shallowly embedded here:

* byte strings are lists of natural numbers (one entry per byte);
* `InputLogEvent` mirrors `cloudwatchlogs.InputLogEvent` (message + timestamp);
* the CloudWatch client is a response script `Nat → PutResult` giving the
  server's answer to the n-th `PutLogEvents` call made by the writer;
* the writer state `W` carries the event buffer, its byte-size accumulator,
  the sequence token, the sticky flush error and a log of all delivery
  calls made so far (token sent, events sent) — the log is the observation
  used to state trace properties;
* `retry`/`Flush`/`flushAll`/`Close` follow the Go control flow line by
  line; sleeps performed by `retry` are returned as a list of
  millisecond durations.
-/

namespace Cwlog

/-- Byte strings (Go `string` / `[]byte`) are lists of naturals, one per byte. -/
abbrev Bytes := List Nat

/-- maxSize: maximum number of bytes in a single CloudWatch log batch. -/
def maxSize : Nat := 1048576

/-- maxEvents: maximum number of events in a single CloudWatch log batch. -/
def maxEvents : Nat := 10000

/-- eventSize: static per-event overhead used for batch size accounting. -/
def eventSize : Nat := 26

/-- maxRetries: maximum number of attempts of a CloudWatch operation. -/
def maxRetries : Nat := 5

/-- Model of `cloudwatchlogs.InputLogEvent`: a message plus a timestamp. -/
structure InputLogEvent where
  message : Bytes
  timestamp : Int
deriving Repr, DecidableEq

/-- Size contribution of one event to a batch: `len(*e.Message) + eventSize`. -/
def eventSizeOf (e : InputLogEvent) : Nat := e.message.length + eventSize

/-- Possible outcomes of one `PutLogEvents` call, as classified by
`handleError` in the source: success with a next sequence token, the three
recognised AWS error codes (two of which carry an expected sequence token),
or any other error. -/
inductive PutResult where
  | success (next : String)
  | dataAlreadyAccepted (expected : String)
  | invalidSequenceToken (expected : String)
  | resourceNotFound
  | otherErr (msg : String)
deriving Repr, DecidableEq

/-- Errors that can flow out of the delivery closure in `Flush`. -/
inductive Err where
  | invalidSeqToken (expected : String)
  | resourceNotFound
  | notImplemented
  | other (msg : String)
deriving Repr, DecidableEq

/-- Writer state: the mutable fields of `LogWriter` that the buffered
delivery path touches, plus `log`, the observable trace of delivery calls
(token included in the request, events of the request). -/
structure W where
  buf : List InputLogEvent
  bufSize : Int
  sequenceToken : String
  flushErr : Option Err
  log : List (Option String × List InputLogEvent)
deriving Repr, DecidableEq

/-- The loop body of `drainBuffer`: walk the buffer accumulating byte size
and count; before taking an event, stop if `size > maxSize` or the number
of events taken so far reaches `maxEvents`.  Returns the drained events and
the accumulated size (the amount subtracted from `bufSize`). -/
def drainLoop : List InputLogEvent → Nat → Nat → List InputLogEvent × Nat
  | [], size, _cnt => ([], size)
  | e :: rest, size, cnt =>
    if maxSize < size ∨ maxEvents ≤ cnt then ([], size)
    else
      let r := drainLoop rest (size + eventSizeOf e) (cnt + 1)
      (e :: r.1, r.2)

/-- `createLogStream` in the source is unimplemented and always returns the
error `"not implemented"`. -/
def createLogStream : Option Err := some Err.notImplemented

/-- Model of `handleError`: given the current sequence token and the error
returned by `PutLogEvents`, return the new token and the error passed back
to `retry` (`none` plays the role of Go's `nil`, i.e. treat as success).
The `success` case never arises (handleError is only invoked on errors). -/
def handleError (tok : String) : PutResult → String × Option Err
  | PutResult.dataAlreadyAccepted t => (t, none)
  | PutResult.invalidSequenceToken t => (t, some (Err.invalidSeqToken t))
  | PutResult.resourceNotFound =>
    match createLogStream with
    | some e => (tok, some e)
    | none => (tok, some Err.resourceNotFound)
  | PutResult.otherErr m => (tok, some (Err.other m))
  | PutResult.success _ => (tok, none)

/-- State threaded through the retry closure of `Flush`: the writer's
sequence token, the call log, and the token field of the (mutable)
`PutLogEventsInput` value, which persists across attempts of one `Flush`. -/
structure FS where
  tok : String
  log : List (Option String × List InputLogEvent)
  inputTok : Option String
deriving Repr, DecidableEq

/-- One iteration of the closure passed to `retry` by `Flush`: set the
input's sequence token if the current token is non-empty, call
`PutLogEvents` (consuming the next scripted response), and on error run
`handleError`. -/
def flushStep (client : Nat → PutResult) (events : List InputLogEvent)
    (s : FS) : FS × Option Err :=
  let sent : Option String := if s.tok = "" then s.inputTok else some s.tok
  let log' := s.log ++ [(sent, events)]
  match client s.log.length with
  | PutResult.success t => (⟨t, log', sent⟩, none)
  | r =>
    let h := handleError s.tok r
    (⟨h.1, log', sent⟩, h.2)

/-- The loop of `retry`, with `fuel = maxRetries - cnt` remaining allowed
attempts.  Before each attempt other than the first, sleep `cnt * 100` ms;
sleeps are accumulated in a list.  On success return `none`; after the
budget is exhausted return the last error. -/
def retryAux {σ : Type} (f : σ → σ × Option Err) :
    Nat → Nat → Option Err → σ → List Nat → σ × Option Err × List Nat
  | 0, _cnt, lastErr, s, sleeps => (s, lastErr, sleeps)
  | fuel + 1, cnt, _lastErr, s, sleeps =>
    let sleeps' := if 0 < cnt then sleeps ++ [cnt * 100] else sleeps
    match f s with
    | (s', none) => (s', none, sleeps')
    | (s', some e) => retryAux f fuel (cnt + 1) (some e) s' sleeps'

/-- Model of `retry`: up to `maxRetries` attempts of `f` with linear
backoff.  Also returns the final state and the list of sleeps performed. -/
def retry {σ : Type} (f : σ → σ × Option Err) (s : σ) :
    σ × Option Err × List Nat :=
  retryAux f maxRetries 0 none s []

/-- Model of `Flush`: if a sticky error is recorded return it immediately;
if the buffer is empty return nil; otherwise drain one batch, deliver it
under `retry`, and record the outcome (nil or the final error) in
`flushErr`.  Returns the new state, the returned error, and the sleeps
performed. -/
def Flush (client : Nat → PutResult) (w : W) : W × Option Err × List Nat :=
  match w.flushErr with
  | some e => (w, some e, [])
  | none =>
    if w.buf = [] then (w, none, [])
    else
      let d := drainLoop w.buf 0 0
      let events := d.1
      let w1 : W :=
        { w with buf := w.buf.drop events.length,
                 bufSize := w.bufSize - (d.2 : Int) }
      let r := retry (flushStep client events) ⟨w1.sequenceToken, w1.log, none⟩
      ({ w1 with sequenceToken := r.1.tok, log := r.1.log, flushErr := r.2.1 },
       r.2.1, r.2.2)

/-- Fuel-indexed unrolling of the `flushAll` loop (`for len(w.buf) > 0`):
`none` means the fuel did not suffice to reach loop exit.  The termination
theorem below shows `buf.length` fuel always suffices. -/
def flushAllFuel (client : Nat → PutResult) :
    Nat → W → Option (W × Option Err × List Nat)
  | 0, w => if w.buf = [] then some (w, none, []) else none
  | fuel + 1, w =>
    if w.buf = [] then some (w, none, [])
    else
      match Flush client w with
      | (w', some e, sl) => some (w', some e, sl)
      | (w', none, sl) =>
        (flushAllFuel client fuel w').map fun r => (r.1, r.2.1, sl ++ r.2.2)

/-- Model of `flushAll`: run the loop with `buf.length` fuel (shown
sufficient below). -/
def flushAll (client : Nat → PutResult) (w : W) :
    Option (W × Option Err × List Nat) :=
  flushAllFuel client w.buf.length w

/-- Model of the tail of `Close` after the scanner goroutine has finished:
if the scanner reported a read error return it, else run `flushAll`. -/
def closeModel (client : Nat → PutResult) (scanRes : Option Err) (w : W) :
    Option Err × W :=
  match scanRes with
  | some e => (some e, w)
  | none =>
    let r := (flushAll client w).getD (w, none, [])
    (r.2.1, r.1)

/-- Model of `appendEvent`: drop empty lines, otherwise append an event
with the given timestamp and add `len(text) + 26` to `bufSize`. -/
def appendEvent (w : W) (text : Bytes) (ts : Int) : W :=
  if text = [] then w
  else
    { w with buf := w.buf ++ [⟨text, ts⟩],
             bufSize := w.bufSize + ((text.length + 26 : Nat) : Int) }

/-- Model of `dropCR` from `bufio.ScanLines`: strip one trailing carriage
return (byte 13). -/
def dropCR (l : Bytes) : Bytes :=
  if l.getLast? = some 13 then l.dropLast else l

/-- Incremental model of the `bufio.Scanner` with `bufio.ScanLines` split
function: given the pending partial line and the next bytes, emit the
completed lines (each split at a newline byte 10 and `dropCR`-stripped) and
return the new pending partial line. -/
def scanBytes : Bytes → Bytes → List Bytes × Bytes
  | pending, [] => ([], pending)
  | pending, b :: bs =>
    if b = 10 then
      let r := scanBytes [] bs
      (dropCR pending :: r.1, r.2)
    else
      scanBytes (pending ++ [b]) bs

/-- Feed a sequence of `Write` chunks through the scanner, threading the
pending partial line across chunk boundaries (the `io.Pipe` delivers the
chunks to the scanner in order). -/
def feedChunks : Bytes → List Bytes → List Bytes × Bytes
  | pending, [] => ([], pending)
  | pending, c :: cs =>
    let r := scanBytes pending c
    let r2 := feedChunks r.2 cs
    (r.1 ++ r2.1, r2.2)

/-- At end of input, a non-empty pending partial line is emitted as a final
token (with `dropCR` applied, as `bufio.ScanLines` does at EOF). -/
def finishLines (p : Bytes) : List Bytes :=
  if p = [] then [] else [dropCR p]

/-- All lines produced by the scanner for a complete sequence of writes. -/
def scannerLines (chunks : List Bytes) : List Bytes :=
  let r := feedChunks [] chunks
  r.1 ++ finishLines r.2

/-- Model of the `readLines` loop body: append each scanned line as an
event via `appendEvent` (which drops empty lines).  The injectable clock
supplies timestamps as a function of the current buffer length. -/
def appendLines (clock : Nat → Int) (w : W) : List Bytes → W
  | [] => w
  | t :: ts => appendLines clock (appendEvent w t (clock w.buf.length)) ts

/-- Model of `readLines` over a whole input: scan all chunks and append
every produced line. -/
def readLinesInto (clock : Nat → Int) (w : W) (chunks : List Bytes) : W :=
  appendLines clock w (scannerLines chunks)

/-- Spec-side definition, following the words of the specification: the
newline-delimited decomposition of a byte sequence.  `splitNL` splits at
every newline byte; the decomposition drops the final segment when it is
empty (a trailing newline terminates the last line rather than opening an
empty one), matching the spec's scenarios 1 and 2. -/
def splitNL : Bytes → List Bytes
  | [] => [[]]
  | b :: bs =>
    if b = 10 then [] :: splitNL bs
    else
      match splitNL bs with
      | s :: rest => (b :: s) :: rest
      | [] => [[b]]

/-- Spec-side helper: drop a final empty segment. -/
def dropFinalEmpty (segs : List Bytes) : List Bytes :=
  if segs.getLast? = some [] then segs.dropLast else segs

/-- Spec-side definition: the newline-delimited decomposition of the
concatenated input bytes, as used by the specification's testable
properties. -/
def newlineDecomp (bs : Bytes) : List Bytes :=
  dropFinalEmpty (splitNL bs)

/-- Lifecycle outcome of a `Close` call: either it returns a value or it
blocks forever. -/
inductive CloseOutcome where
  | blocked
  | returned (e : Option Err)
deriving Repr, DecidableEq

/-- Lifecycle state surrounding the writer: whether the `periodicFlush`
goroutine is still running (it is the only receiver on the unbuffered
`closed` channel), and whether the `readLines` goroutine's single send on
`scanErr` is still pending (it sends exactly once, at end of input). -/
structure LW where
  w : W
  schedulerRunning : Bool
  scanPending : Option (Option Err)
deriving Repr, DecidableEq

/-- Model of one `Close` call.  `stop` sends on the unbuffered `closed`
channel: the send succeeds only while `periodicFlush` is still selecting on
it, otherwise `Close` blocks.  Then `Close` receives from `scanErr`, which
blocks unless the scanner's single send is still pending.  Finally it
returns the scan error, or the result of `flushAll`. -/
def closeOnce (client : Nat → PutResult) (s : LW) : CloseOutcome × LW :=
  if s.schedulerRunning = false then (CloseOutcome.blocked, s)
  else
    let s1 : LW := { s with schedulerRunning := false }
    match s1.scanPending with
    | none => (CloseOutcome.blocked, s1)
    | some res =>
      let s2 : LW := { s1 with scanPending := none }
      match res with
      | some e => (CloseOutcome.returned (some e), s2)
      | none =>
        let r := (flushAll client s2.w).getD (s2.w, none, [])
        (CloseOutcome.returned r.2.1, { s2 with w := r.1 })

/-! ### Token-trace definitions (for the sequence-token claims) -/

/-- The token carried by a delivery response, if any: the next token of a
success, or the expected token of an already-accepted or stale-token
error. -/
def tokOf? : PutResult → Option String
  | PutResult.success t => some t
  | PutResult.dataAlreadyAccepted t => some t
  | PutResult.invalidSequenceToken t => some t
  | PutResult.resourceNotFound => none
  | PutResult.otherErr _ => none

/-- Token-state transition induced by one delivery response. -/
def tokStep (t : String) (r : PutResult) : String := (tokOf? r).getD t

/-- The writer's sequence token after the first `n` delivery calls,
starting from the empty token of a fresh writer. -/
def tokAfter (client : Nat → PutResult) : Nat → String
  | 0 => ""
  | n + 1 => tokStep (tokAfter client n) (client n)

/-- The token field a request carries when the current token is `t`: it is
omitted exactly while `t` is the empty string. -/
def sentTok (t : String) : Option String := if t = "" then none else some t

/-- Every token the scripted server hands out is non-empty (as is the case
for the real CloudWatch service). -/
def goodClient (client : Nat → PutResult) : Prop :=
  ∀ n, tokOf? (client n) ≠ some ""

/-- Trace invariant of the writer: the current sequence token is the one
determined by the responses consumed so far, and the token field of the
i-th request was exactly the (possibly omitted) token current after the
first i responses. -/
def TokenInv (client : Nat → PutResult) (w : W) : Prop :=
  w.sequenceToken = tokAfter client w.log.length ∧
  ∀ i (h : i < w.log.length), (w.log[i]).1 = sentTok (tokAfter client i)

/-- The same invariant for the state threaded through the retry loop,
strengthened with the fact that the input's token field is still unset
while the current token is empty. -/
def FSInv (client : Nat → PutResult) (fs : FS) : Prop :=
  fs.tok = tokAfter client fs.log.length ∧
  (fs.tok = "" → fs.inputTok = none) ∧
  ∀ i (h : i < fs.log.length), (fs.log[i]).1 = sentTok (tokAfter client i)

/-! ### Concrete fixtures used in counterexamples and witnesses -/

/-- A fresh writer with an empty buffer. -/
def emptyW : W := ⟨[], 0, "", none, []⟩

/-- A writer holding one buffered event (message "a"). -/
def oneEventW : W := ⟨[⟨[97], 0⟩], 27, "", none, []⟩

/-- A writer holding two buffered events. -/
def twoEventW : W := ⟨[⟨[97], 0⟩, ⟨[98], 1⟩], 54, "", none, []⟩

/-- A client that always answers with a stale-sequence-token error. -/
def staleClient : Nat → PutResult := fun _ => PutResult.invalidSequenceToken "9"

/-- A client whose first answer is a stale-sequence-token error and whose
subsequent answers are successes. -/
def staleThenSuccess : Nat → PutResult :=
  fun n => if n = 0 then PutResult.invalidSequenceToken "42"
           else PutResult.success "43"

/-- A client that always succeeds. -/
def allSuccess : Nat → PutResult := fun _ => PutResult.success "tk"

/-- A client that always fails with a generic (countable) error. -/
def failClient : Nat → PutResult := fun _ => PutResult.otherErr "x"

/-- A poisoned writer: sticky error recorded, buffer already empty. -/
def stickyW : W := ⟨[], 0, "tok", some (Err.other "boom"), []⟩

/-- An event whose message is 524275 bytes long. -/
def bigEvent : InputLogEvent := ⟨List.replicate 524275 97, 0⟩

/-! ### Basic facts about the drain loop -/

theorem drainLoop_take (buf : List InputLogEvent) (s c : Nat) :
    (drainLoop buf s c).1 = buf.take (drainLoop buf s c).1.length := by
  induction buf generalizing s c with
  | nil => simp [drainLoop]
  | cons e rest ih =>
    by_cases h : maxSize < s ∨ maxEvents ≤ c
    · simp [drainLoop, h]
    · simp only [drainLoop, if_neg h, List.length_cons, List.take_succ_cons,
        List.cons.injEq, true_and]
      exact ih _ _

theorem drainLoop_append (buf : List InputLogEvent) (s c : Nat) :
    (drainLoop buf s c).1 ++ buf.drop (drainLoop buf s c).1.length = buf := by
  nth_rewrite 1 [drainLoop_take buf s c]
  exact List.take_append_drop _ _

theorem drainLoop_ne_nil (buf : List InputLogEvent) (h : buf ≠ []) :
    (drainLoop buf 0 0).1 ≠ [] := by
  cases buf with
  | nil => exact absurd rfl h
  | cons e rest =>
    simp [drainLoop, maxSize, maxEvents]

theorem drainLoop_head (buf : List InputLogEvent) (h : buf ≠ []) :
    (drainLoop buf 0 0).1.head? = buf.head? := by
  cases buf with
  | nil => exact absurd rfl h
  | cons e rest =>
    simp [drainLoop, maxSize, maxEvents]

theorem drainLoop_size (buf : List InputLogEvent) (s c : Nat) :
    (drainLoop buf s c).2 = s + ((drainLoop buf s c).1.map eventSizeOf).sum := by
  induction buf generalizing s c with
  | nil => simp [drainLoop]
  | cons e rest ih =>
    by_cases h : maxSize < s ∨ maxEvents ≤ c
    · simp [drainLoop, h]
    · simp only [drainLoop, if_neg h, List.map_cons, List.sum_cons]
      rw [ih]
      omega

/-! ### Shape lemmas for Flush -/

theorem Flush_sticky (client : Nat → PutResult) (w : W) (e : Err)
    (h : w.flushErr = some e) : Flush client w = (w, some e, []) := by
  simp [Flush, h]

theorem Flush_nil (client : Nat → PutResult) (w : W)
    (h1 : w.flushErr = none) (h2 : w.buf = []) :
    Flush client w = (w, none, []) := by
  simp [Flush, h1, h2]

theorem Flush_drain (client : Nat → PutResult) (w : W)
    (h1 : w.flushErr = none) (h2 : w.buf ≠ []) :
    Flush client w =
      ({ buf := w.buf.drop (drainLoop w.buf 0 0).1.length,
         bufSize := w.bufSize - ((drainLoop w.buf 0 0).2 : Int),
         sequenceToken :=
           (retry (flushStep client (drainLoop w.buf 0 0).1)
             ⟨w.sequenceToken, w.log, none⟩).1.tok,
         flushErr :=
           (retry (flushStep client (drainLoop w.buf 0 0).1)
             ⟨w.sequenceToken, w.log, none⟩).2.1,
         log :=
           (retry (flushStep client (drainLoop w.buf 0 0).1)
             ⟨w.sequenceToken, w.log, none⟩).1.log },
       (retry (flushStep client (drainLoop w.buf 0 0).1)
         ⟨w.sequenceToken, w.log, none⟩).2.1,
       (retry (flushStep client (drainLoop w.buf 0 0).1)
         ⟨w.sequenceToken, w.log, none⟩).2.2) := by
  simp [Flush, h1, h2]

theorem Flush_flushErr_eq (client : Nat → PutResult) (w : W) :
    (Flush client w).1.flushErr = (Flush client w).2.1 := by
  match hE : w.flushErr with
  | some e => rw [Flush_sticky client w e hE, hE]
  | none =>
    by_cases hB : w.buf = []
    · rw [Flush_nil client w hE hB, hE]
    · rw [Flush_drain client w hE hB]

theorem Flush_buf_shrinks (client : Nat → PutResult) (w : W)
    (h1 : w.flushErr = none) (h2 : w.buf ≠ []) :
    (Flush client w).1.buf.length < w.buf.length := by
  rw [Flush_drain client w h1 h2]
  have hk : 0 < (drainLoop w.buf 0 0).1.length :=
    List.length_pos.mpr (drainLoop_ne_nil w.buf h2)
  have hl : 0 < w.buf.length := List.length_pos.mpr h2
  simp only [List.length_drop]
  omega

/-! ### Termination of flushAll -/

theorem flushAllFuel_total (client : Nat → PutResult) :
    ∀ fuel (w : W), w.buf.length ≤ fuel →
      ∃ r, flushAllFuel client fuel w = some r := by
  intro fuel
  induction fuel with
  | zero =>
    intro w hw
    have : w.buf = [] := List.eq_nil_of_length_eq_zero (Nat.le_zero.mp hw)
    exact ⟨(w, none, []), by simp [flushAllFuel, this]⟩
  | succ fuel ih =>
    intro w hw
    by_cases hB : w.buf = []
    · exact ⟨(w, none, []), by simp [flushAllFuel, hB]⟩
    · match hE : w.flushErr with
      | some e =>
        refine ⟨((Flush client w).1, some e, (Flush client w).2.2), ?_⟩
        simp only [flushAllFuel, if_neg hB]
        rw [Flush_sticky client w e hE]
      | none =>
        match hF : Flush client w with
        | (w', some e, sl) =>
          refine ⟨(w', some e, sl), ?_⟩
          simp only [flushAllFuel, if_neg hB, hF]
        | (w', none, sl) =>
          have hlt : w'.buf.length < w.buf.length := by
            have := Flush_buf_shrinks client w hE hB
            rwa [hF] at this
          obtain ⟨r, hr⟩ := ih w' (by omega)
          refine ⟨(r.1, r.2.1, sl ++ r.2.2), ?_⟩
          simp only [flushAllFuel, if_neg hB, hF, hr]
          rfl

/-- Behaviour of `Flush` when the first delivery attempt succeeds. -/
theorem Flush_success (client : Nat → PutResult) (w : W) (t : String)
    (h1 : w.flushErr = none) (h2 : w.buf ≠ [])
    (hs : client w.log.length = PutResult.success t) :
    Flush client w =
      ({ buf := w.buf.drop (drainLoop w.buf 0 0).1.length,
         bufSize := w.bufSize - ((drainLoop w.buf 0 0).2 : Int),
         sequenceToken := t, flushErr := none,
         log := w.log ++ [((if w.sequenceToken = "" then none
                            else some w.sequenceToken), (drainLoop w.buf 0 0).1)] },
       none, []) := by
  rw [Flush_drain client w h1 h2]
  simp [retry, maxRetries, retryAux, flushStep, hs]

/-! ### Claim C1 -/

/-- C1: the claim says a drained batch's total byte size (sum of
`len(message) + 26`) never exceeds `maxSize`, the walk stopping before an
event that would push the accumulator over the cap.  The code only stops
once the accumulated size already exceeds `maxSize` (`size > maxSize` is
tested before the event is added, but without the candidate event's size),
so the returned batch can exceed the cap: with two events of 524275 message
bytes each, both are drained and the batch totals 1048602 bytes >
maxSize = 1048576.  The first conjunct checks that the accumulator returned
by the loop really is the drained batch's total byte size. -/
theorem c1_drainBuffer_batch_exceeds_byte_cap :
    (∀ (buf : List InputLogEvent) (s c : Nat),
        (drainLoop buf s c).2 = s + ((drainLoop buf s c).1.map eventSizeOf).sum) ∧
    ∀ (e : InputLogEvent), e.message.length = 524275 →
      (drainLoop [e, e] 0 0).1 = [e, e] ∧
      (drainLoop [e, e] 0 0).2 = 1048602 ∧
      maxSize < 1048602 := by
  refine ⟨drainLoop_size, ?_⟩
  intro e he
  simp [drainLoop, eventSizeOf, he, maxSize, maxEvents, eventSize]

/-- C1 witness: the over-cap batch exhibited at the concrete 524275-byte
events. -/
theorem c1_drainBuffer_batch_exceeds_byte_cap_witness :
    (drainLoop [bigEvent, bigEvent] 0 0).1 = [bigEvent, bigEvent] ∧
    (drainLoop [bigEvent, bigEvent] 0 0).2 = 1048602 ∧
    maxSize < 1048602 :=
  c1_drainBuffer_batch_exceeds_byte_cap.2 bigEvent
    (by rw [show bigEvent.message = List.replicate 524275 97 from rfl,
            List.length_replicate])

/-! ### Claim C2 -/

/-- C2 counterexample: the claim says stale-token errors are retried with
no backoff sleep and no attempt-count increment, never consuming the retry
budget.  Against a client that always answers with a stale-token error,
`Flush` performs the four linear backoff sleeps and exhausts the budget,
returning (and stickily recording) the stale-token error. -/
theorem c2_stale_token_counterexample :
    (Flush staleClient oneEventW).2.1 = some (Err.invalidSeqToken "9") ∧
    (Flush staleClient oneEventW).2.2 = [100, 200, 300, 400] ∧
    (Flush staleClient oneEventW).1.flushErr = some (Err.invalidSeqToken "9") := by
  decide

/-- C2 (amended): on a stale-sequence-token failure the writer adopts the
error's expected token and the retry loop does retry with the adopted
token, but the attempt is counted and a backoff sleep of
`attemptCount × 100` ms is performed before the retry: stale-token errors
consume the retry budget like any other countable error.  Concretely, if
the first response is stale (expected token `t ≠ ""`) and the second is a
success, `Flush` succeeds after exactly two calls, the second call carries
token `t`, and one 100 ms sleep happened. -/
theorem c2_stale_token_adopted_but_counted (client : Nat → PutResult) (w : W)
    (t t2 : String) (h1 : w.flushErr = none) (h2 : w.buf ≠ []) (ht : t ≠ "")
    (hc0 : client w.log.length = PutResult.invalidSequenceToken t)
    (hc1 : client (w.log.length + 1) = PutResult.success t2) :
    (Flush client w).2.1 = none ∧
    (Flush client w).2.2 = [100] ∧
    (Flush client w).1.sequenceToken = t2 ∧
    (Flush client w).1.log =
      w.log ++ [((if w.sequenceToken = "" then none else some w.sequenceToken),
                 (drainLoop w.buf 0 0).1),
                (some t, (drainLoop w.buf 0 0).1)] := by
  rw [Flush_drain client w h1 h2]
  simp [retry, maxRetries, retryAux, flushStep, hc0, hc1, handleError, ht]

/-- C2 witness: the amended theorem applied to the one-event writer and the
stale-then-success client. -/
theorem c2_stale_token_adopted_but_counted_witness :
    (Flush staleThenSuccess oneEventW).2.1 = none ∧
    (Flush staleThenSuccess oneEventW).2.2 = [100] ∧
    (Flush staleThenSuccess oneEventW).1.sequenceToken = "43" ∧
    (Flush staleThenSuccess oneEventW).1.log =
      oneEventW.log ++
        [((if oneEventW.sequenceToken = "" then none
           else some oneEventW.sequenceToken), (drainLoop oneEventW.buf 0 0).1),
         (some "42", (drainLoop oneEventW.buf 0 0).1)] :=
  c2_stale_token_adopted_but_counted staleThenSuccess oneEventW "42" "43"
    rfl (by decide) (by decide) (by decide) (by decide)

/-! ### Claim C3 -/

/-- C3 counterexample: the claim says every subsequent `Close` returns the
recorded sticky error.  For a poisoned writer whose buffer is empty (the
normal situation after the failed flush drained it), `flushAll` skips
`Flush` entirely and `Close` returns nil, not the sticky error. -/
theorem c3_sticky_close_counterexample :
    stickyW.flushErr = some (Err.other "boom") ∧
    (closeModel allSuccess none stickyW).1 = none ∧
    (closeModel allSuccess none stickyW).1 ≠ stickyW.flushErr := by
  decide

/-- C3 (amended): once a sticky error is recorded, every subsequent `Flush`
returns it immediately without draining the buffer or attempting delivery
(the state, including the call log, is unchanged); `Close` (with a clean
scanner result) returns the sticky error when the buffer is non-empty —
again without any delivery call — but returns nil when the buffer is
empty, because `flushAll`'s loop never invokes `Flush`. -/
theorem c3_sticky_error_short_circuits (client : Nat → PutResult) (w : W)
    (e : Err) (h : w.flushErr = some e) :
    Flush client w = (w, some e, []) ∧
    (w.buf ≠ [] → closeModel client none w = (some e, w)) ∧
    (w.buf = [] → closeModel client none w = (none, w)) := by
  refine ⟨Flush_sticky client w e h, ?_, ?_⟩
  · intro hb
    obtain ⟨n, hn⟩ : ∃ n, w.buf.length = n + 1 := by
      have := List.length_pos.mpr hb
      exact ⟨w.buf.length - 1, by omega⟩
    simp only [closeModel, flushAll, hn, flushAllFuel, if_neg hb]
    rw [Flush_sticky client w e h]
    rfl
  · intro hb
    simp [closeModel, flushAll, hb, flushAllFuel]

/-- C3 witness: the amended theorem applied to the poisoned empty-buffer
writer. -/
theorem c3_sticky_error_short_circuits_witness :
    Flush allSuccess stickyW = (stickyW, some (Err.other "boom"), []) ∧
    (closeModel allSuccess none stickyW = (none, stickyW)) :=
  have h := c3_sticky_error_short_circuits allSuccess stickyW
    (Err.other "boom") rfl
  ⟨h.1, h.2.2 rfl⟩

/-! ### Claim C4 -/

/-- C4: against a client whose every answer is a countable (generic)
error, `retry` makes exactly `maxRetries = 5` attempts, sleeping
`attemptCount × 100` ms between consecutive attempts (no sleep before the
first), the last error is returned, and `Flush` records it as the sticky
`flushErr` and returns it.  The call log grows by exactly 5 entries. -/
theorem c4_generic_errors_exhaust_budget (client : Nat → PutResult) (w : W)
    (m : Nat → String) (h1 : w.flushErr = none) (h2 : w.buf ≠ [])
    (h3 : ∀ n, client n = PutResult.otherErr (m n)) :
    (Flush client w).2.1 = some (Err.other (m (w.log.length + 4))) ∧
    (Flush client w).2.2 = [100, 200, 300, 400] ∧
    (Flush client w).1.flushErr = some (Err.other (m (w.log.length + 4))) ∧
    (Flush client w).1.log.length = w.log.length + 5 := by
  rw [Flush_drain client w h1 h2]
  simp [retry, maxRetries, retryAux, flushStep, h3, handleError]

/-- C4 witness: the theorem applied to the one-event writer and the
always-failing client. -/
theorem c4_generic_errors_exhaust_budget_witness :
    (Flush failClient oneEventW).2.1 = some (Err.other "x") ∧
    (Flush failClient oneEventW).2.2 = [100, 200, 300, 400] ∧
    (Flush failClient oneEventW).1.flushErr = some (Err.other "x") ∧
    (Flush failClient oneEventW).1.log.length = oneEventW.log.length + 5 :=
  c4_generic_errors_exhaust_budget failClient oneEventW (fun _ => "x")
    rfl (by decide) (fun _ => rfl)

/-! ### Claim C9 -/

/-- C9: for every non-empty buffer `drainBuffer` returns at least one
event — the batch starts with the head of the buffer unconditionally, in
particular even when the head's own size exceeds `maxSize` —, a `Flush`
from a non-poisoned state strictly decreases the buffer length, and the
`flushAll` loop reaches its exit (empty buffer or returned error) within
`buf.length` iterations. -/
theorem c9_drain_progress_termination (client : Nat → PutResult) (w : W)
    (h2 : w.buf ≠ []) :
    (drainLoop w.buf 0 0).1 ≠ [] ∧
    (drainLoop w.buf 0 0).1.head? = w.buf.head? ∧
    (w.flushErr = none → (Flush client w).1.buf.length < w.buf.length) ∧
    (∀ fuel, w.buf.length ≤ fuel → ∃ r, flushAllFuel client fuel w = some r) := by
  refine ⟨drainLoop_ne_nil w.buf h2, drainLoop_head w.buf h2, ?_, ?_⟩
  · intro h1
    exact Flush_buf_shrinks client w h1 h2
  · intro fuel hf
    exact flushAllFuel_total client fuel w hf

/-- C9 witness: the theorem applied to the one-event writer. -/
theorem c9_drain_progress_termination_witness :
    (drainLoop oneEventW.buf 0 0).1 ≠ [] ∧
    (Flush allSuccess oneEventW).1.buf.length < oneEventW.buf.length ∧
    (∃ r, flushAllFuel allSuccess oneEventW.buf.length oneEventW = some r) :=
  have h := c9_drain_progress_termination allSuccess oneEventW (by decide)
  ⟨h.1, h.2.2.1 rfl, h.2.2.2 oneEventW.buf.length (Nat.le_refl _)⟩

/-! ### Claim C10 -/

/-- C10: when the retry loop inside `Flush` returns an error, the batch
drained at the start of that `Flush` has already been removed from the
buffer and is never re-queued: the resulting buffer is exactly the suffix
left after the drain (so the drained prefix is permanently lost), the error
is recorded, and an event appended afterwards lands after that suffix. -/
theorem c10_flush_failure_loses_batch (client : Nat → PutResult) (w : W)
    (e : Err) (h1 : w.flushErr = none) (h2 : w.buf ≠ [])
    (h3 : (Flush client w).2.1 = some e) :
    (drainLoop w.buf 0 0).1 ≠ [] ∧
    (Flush client w).1.buf = w.buf.drop (drainLoop w.buf 0 0).1.length ∧
    (drainLoop w.buf 0 0).1 ++ (Flush client w).1.buf = w.buf ∧
    (Flush client w).1.flushErr = some e ∧
    ∀ (text : Bytes) (ts : Int), text ≠ [] →
      (appendEvent (Flush client w).1 text ts).buf
        = w.buf.drop (drainLoop w.buf 0 0).1.length ++ [⟨text, ts⟩] := by
  have hd := Flush_drain client w h1 h2
  refine ⟨drainLoop_ne_nil w.buf h2, ?_, ?_, ?_, ?_⟩
  · rw [hd]
  · rw [hd]
    exact drainLoop_append w.buf 0 0
  · rw [Flush_flushErr_eq client w, h3]
  · intro text ts htext
    rw [hd]
    simp [appendEvent, htext]

/-- C10 witness: the theorem applied to the one-event writer and the
always-failing client. -/
theorem c10_flush_failure_loses_batch_witness :
    (drainLoop oneEventW.buf 0 0).1 ≠ [] ∧
    (Flush failClient oneEventW).1.buf
      = oneEventW.buf.drop (drainLoop oneEventW.buf 0 0).1.length ∧
    (drainLoop oneEventW.buf 0 0).1 ++ (Flush failClient oneEventW).1.buf
      = oneEventW.buf ∧
    (Flush failClient oneEventW).1.flushErr = some (Err.other "x") :=
  have h := c10_flush_failure_loses_batch failClient oneEventW
    (Err.other "x") rfl (by decide) (by decide)
  ⟨h.1, h.2.1, h.2.2.1, h.2.2.2.1⟩

/-! ### Claim C6 -/

/-- Under a client that always succeeds, the `flushAll` loop empties the
buffer; the delivery log grows by a list of batches whose concatenated
event lists are exactly the starting buffer. -/
theorem flushAllFuel_success (client : Nat → PutResult)
    (H : ∀ n, ∃ t, client n = PutResult.success t) :
    ∀ fuel (w : W), w.buf.length ≤ fuel → w.flushErr = none →
      ∃ w' new, flushAllFuel client fuel w = some (w', none, []) ∧
        w'.buf = [] ∧ w'.flushErr = none ∧ w'.log = w.log ++ new ∧
        (new.map (fun c => c.2)).flatten = w.buf := by
  intro fuel
  induction fuel with
  | zero =>
    intro w hw h1
    have hb : w.buf = [] := List.eq_nil_of_length_eq_zero (Nat.le_zero.mp hw)
    exact ⟨w, [], by simp [flushAllFuel, hb], hb, h1, by simp, by simp [hb]⟩
  | succ fuel ih =>
    intro w hw h1
    by_cases hb : w.buf = []
    · exact ⟨w, [], by simp [flushAllFuel, hb], hb, h1, by simp, by simp [hb]⟩
    · obtain ⟨t, ht⟩ := H w.log.length
      have hF := Flush_success client w t h1 hb ht
      have hk : 0 < (drainLoop w.buf 0 0).1.length :=
        List.length_pos.mpr (drainLoop_ne_nil w.buf hb)
      set w1 : W :=
        { buf := w.buf.drop (drainLoop w.buf 0 0).1.length,
          bufSize := w.bufSize - ((drainLoop w.buf 0 0).2 : Int),
          sequenceToken := t, flushErr := none,
          log := w.log ++ [((if w.sequenceToken = "" then none
                             else some w.sequenceToken),
                            (drainLoop w.buf 0 0).1)] } with hw1
      have hlen : w1.buf.length ≤ fuel := by
        rw [hw1]
        simp only [List.length_drop]
        have hl : 0 < w.buf.length := List.length_pos.mpr hb
        omega
      obtain ⟨w', new1, hsome, hb', he', hlog, hflat⟩ := ih w1 hlen rfl
      refine ⟨w', ((if w.sequenceToken = "" then none
                    else some w.sequenceToken), (drainLoop w.buf 0 0).1) :: new1,
              ?_, hb', he', ?_, ?_⟩
      · simp only [flushAllFuel, if_neg hb, hF, hsome]
        rfl
      · rw [hlog, hw1]
        simp
      · simp only [List.map_cons, List.flatten_cons, hflat, hw1]
        exact drainLoop_append w.buf 0 0

/-- C6: when every delivery succeeds, `flushAll` drains the whole buffer
through a sequence of batches whose concatenation, in delivery order, is
exactly the buffered event sequence — no reordering, loss or duplication —
and (first conjunct) every batch produced by `drainBuffer` is a contiguous
prefix taken from the head of the buffer it was drained from. -/
theorem c6_success_delivers_all (client : Nat → PutResult) (w : W)
    (h1 : w.flushErr = none)
    (H : ∀ n, ∃ t, client n = PutResult.success t) :
    (∀ (b : List InputLogEvent) (s c : Nat),
        (drainLoop b s c).1 = b.take (drainLoop b s c).1.length) ∧
    ∃ w' new, flushAll client w = some (w', none, []) ∧
      w'.buf = [] ∧ w'.log = w.log ++ new ∧
      (new.map (fun c => c.2)).flatten = w.buf := by
  refine ⟨drainLoop_take, ?_⟩
  obtain ⟨w', new, hsome, hb, _, hlog, hflat⟩ :=
    flushAllFuel_success client H w.buf.length w (Nat.le_refl _) h1
  exact ⟨w', new, hsome, hb, hlog, hflat⟩

/-- C6 witness: the theorem applied to the two-event writer and the
always-successful client. -/
theorem c6_success_delivers_all_witness :
    ∃ w' new, flushAll allSuccess twoEventW = some (w', none, []) ∧
      w'.buf = [] ∧ w'.log = twoEventW.log ++ new ∧
      (new.map (fun c => c.2)).flatten = twoEventW.buf :=
  (c6_success_delivers_all allSuccess twoEventW rfl
    (fun _ => ⟨"tk", rfl⟩)).2

/-! ### Claim C7 -/

theorem flushStep_tok (client : Nat → PutResult) (events : List InputLogEvent)
    (fs : FS) :
    (flushStep client events fs).1.tok = tokStep fs.tok (client fs.log.length) := by
  cases hr : client fs.log.length <;>
    simp [flushStep, hr, handleError, createLogStream, tokStep, tokOf?]

theorem flushStep_log (client : Nat → PutResult) (events : List InputLogEvent)
    (fs : FS) :
    (flushStep client events fs).1.log
      = fs.log ++ [((if fs.tok = "" then fs.inputTok else some fs.tok), events)] := by
  cases hr : client fs.log.length <;>
    simp [flushStep, hr, handleError, createLogStream]

theorem flushStep_inputTok (client : Nat → PutResult) (events : List InputLogEvent)
    (fs : FS) :
    (flushStep client events fs).1.inputTok
      = (if fs.tok = "" then fs.inputTok else some fs.tok) := by
  cases hr : client fs.log.length <;>
    simp [flushStep, hr, handleError, createLogStream]

theorem tokAfter_stay_nonempty (client : Nat → PutResult)
    (hg : goodClient client) (n : Nat) (h : tokAfter client n ≠ "") :
    tokAfter client (n + 1) ≠ "" := by
  have hgn := hg n
  cases hr : tokOf? (client n) with
  | none => simpa [tokAfter, tokStep, hr] using h
  | some t =>
    have ht : t ≠ "" := fun he => hgn (by rw [hr, he])
    simpa [tokAfter, tokStep, hr] using ht

theorem tokAfter_empty_mono (client : Nat → PutResult) (hg : goodClient client) :
    ∀ n, tokAfter client n = "" → ∀ m, m ≤ n → tokAfter client m = "" := by
  intro n
  induction n with
  | zero =>
    intro _ m hm
    have : m = 0 := Nat.le_zero.mp hm
    simp [this, tokAfter]
  | succ n ih =>
    intro h m hm
    have hn : tokAfter client n = "" := by
      by_contra hne
      exact (tokAfter_stay_nonempty client hg n hne) h
    by_cases hmn : m ≤ n
    · exact ih hn m hmn
    · have hme : m = n + 1 := by omega
      rw [hme]; exact h

theorem empty_token_no_success (client : Nat → PutResult)
    (hg : goodClient client) (n : Nat) (h : tokAfter client n = "") :
    ∀ m, m < n → ∀ t, client m ≠ PutResult.success t := by
  intro m hm t hc
  have ht : t ≠ "" := by
    have := hg m
    rw [hc] at this
    simpa [tokOf?] using this
  have h1 : tokAfter client (m + 1) ≠ "" := by
    simp [tokAfter, tokStep, hc, tokOf?, ht]
  exact h1 (tokAfter_empty_mono client hg n h (m + 1) hm)

theorem flushStep_FSInv (client : Nat → PutResult) (events : List InputLogEvent)
    (hg : goodClient client) (fs : FS) (hinv : FSInv client fs) :
    FSInv client (flushStep client events fs).1 := by
  obtain ⟨h1, h2, h3⟩ := hinv
  have hsent : (if fs.tok = "" then fs.inputTok else some fs.tok)
      = sentTok (tokAfter client fs.log.length) := by
    by_cases he : fs.tok = ""
    · rw [if_pos he, h2 he, sentTok, if_pos (h1 ▸ he)]
    · rw [if_neg he, sentTok, if_neg (h1 ▸ he), h1]
  refine ⟨?_, ?_, ?_⟩
  · rw [flushStep_tok, flushStep_log, h1]
    simp [tokAfter]
  · intro hemp
    rw [flushStep_tok] at hemp
    rw [flushStep_inputTok]
    have hemp' : tokAfter client (fs.log.length + 1) = "" := by
      simp only [tokAfter]
      rw [← h1]
      exact hemp
    have hn : tokAfter client fs.log.length = "" :=
      tokAfter_empty_mono client hg (fs.log.length + 1) hemp' fs.log.length
        (Nat.le_succ _)
    have he : fs.tok = "" := by rw [h1]; exact hn
    rw [if_pos he]
    exact h2 he
  · rw [flushStep_log]
    intro i hi
    simp only [List.length_append, List.length_cons, List.length_nil] at hi
    by_cases hil : i < fs.log.length
    · rw [List.getElem_append_left hil]
      exact h3 i hil
    · have hieq : i = fs.log.length := by omega
      subst hieq
      rw [List.getElem_append_right (Nat.le_refl _)]
      simpa using hsent

theorem retryAux_preserves {σ : Type} (P : σ → Prop) (f : σ → σ × Option Err)
    (hf : ∀ s, P s → P (f s).1) :
    ∀ fuel cnt lastErr s sleeps, P s → P (retryAux f fuel cnt lastErr s sleeps).1 := by
  intro fuel
  induction fuel with
  | zero => intro _ _ s _ hP; simpa [retryAux] using hP
  | succ fuel ih =>
    intro cnt lastErr s sleeps hP
    simp only [retryAux]
    rcases hfs : f s with ⟨s', e?⟩
    have hP' : P s' := by
      have := hf s hP
      rw [hfs] at this
      exact this
    cases e? with
    | none => simpa [hfs] using hP'
    | some e =>
      exact ih (cnt + 1) (some e) s'
        (if 0 < cnt then sleeps ++ [cnt * 100] else sleeps) hP'


/-- C7: `Flush` preserves the token-chain invariant — the token passed to
delivery call N+1 is exactly the token produced by call N (the
`NextSequenceToken` of a success, or the expected token adopted from an
already-accepted or stale-token error, unchanged by other errors), and the
token is omitted from a request exactly while it is the empty string —
and, provided the server only hands out non-empty tokens, the token is
empty only while no successful delivery has happened yet. -/
theorem c7_sequence_token_chain (client : Nat → PutResult) (w : W)
    (hg : goodClient client) (hinv : TokenInv client w) :
    TokenInv client (Flush client w).1 ∧
    ∀ n, tokAfter client n = "" → ∀ m, m < n → ∀ t,
      client m ≠ PutResult.success t := by
  constructor
  · match hE : w.flushErr with
    | some e =>
      rw [Flush_sticky client w e hE]
      exact hinv
    | none =>
      by_cases hb : w.buf = []
      · rw [Flush_nil client w hE hb]
        exact hinv
      · rw [Flush_drain client w hE hb]
        have h0 : FSInv client ⟨w.sequenceToken, w.log, none⟩ :=
          ⟨hinv.1, fun _ => rfl, hinv.2⟩
        have hP := retryAux_preserves (FSInv client)
          (flushStep client (drainLoop w.buf 0 0).1)
          (fun s hs => flushStep_FSInv client _ hg s hs)
          maxRetries 0 none ⟨w.sequenceToken, w.log, none⟩ [] h0
        exact ⟨hP.1, hP.2.2⟩
  · exact fun n hn m hm t => empty_token_no_success client hg n hn m hm t

/-- C7 witness: the theorem applied to a fresh writer and the
always-successful client. -/
theorem c7_sequence_token_chain_witness :
    TokenInv allSuccess (Flush allSuccess emptyW).1 :=
  (c7_sequence_token_chain allSuccess emptyW
    (fun n => by simp [allSuccess, tokOf?])
    ⟨rfl, fun i h => absurd h (by simp [emptyW])⟩).1

/-! ### Claim C5 -/

theorem scanBytes_append (xs ys : Bytes) :
    ∀ p : Bytes, scanBytes p (xs ++ ys)
      = ((scanBytes p xs).1 ++ (scanBytes (scanBytes p xs).2 ys).1,
         (scanBytes (scanBytes p xs).2 ys).2) := by
  induction xs with
  | nil => intro p; simp [scanBytes]
  | cons b bs ih =>
    intro p
    by_cases hb : b = 10
    · simp [scanBytes, hb, ih []]
    · simp [scanBytes, hb, ih (p ++ [b])]

theorem feedChunks_flatten : ∀ (cs : List Bytes) (p : Bytes),
    feedChunks p cs = scanBytes p cs.flatten := by
  intro cs
  induction cs with
  | nil => intro p; simp [feedChunks, scanBytes]
  | cons c cs ih =>
    intro p
    simp [feedChunks, ih, scanBytes_append c cs.flatten p]

theorem splitNL_ne_nil (bs : Bytes) : splitNL bs ≠ [] := by
  induction bs with
  | nil => simp [splitNL]
  | cons b bs ih =>
    by_cases hb : b = 10
    · simp [splitNL, hb]
    · simp only [splitNL, if_neg hb]
      rcases h : splitNL bs with _ | ⟨s, rest⟩
      · simp
      · simp

theorem splitNL_no_newline (p : Bytes) (h : (10 : Nat) ∉ p) : splitNL p = [p] := by
  induction p with
  | nil => simp [splitNL]
  | cons b bs ih =>
    have hb : b ≠ 10 := fun he => h (he ▸ List.mem_cons_self b bs)
    have hbs : (10 : Nat) ∉ bs := fun hm => h (List.mem_cons_of_mem b hm)
    simp [splitNL, hb, ih hbs]

theorem splitNL_newline (r : Bytes) : ∀ p : Bytes, (10 : Nat) ∉ p →
    splitNL (p ++ 10 :: r) = p :: splitNL r := by
  intro p
  induction p with
  | nil => intro _; simp [splitNL]
  | cons b bs ih =>
    intro h
    have hb : b ≠ 10 := fun he => h (he ▸ List.mem_cons_self b bs)
    have hbs : (10 : Nat) ∉ bs := fun hm => h (List.mem_cons_of_mem b hm)
    simp [splitNL, hb, ih hbs]

theorem dropFinalEmpty_cons (p : Bytes) (l : List Bytes) (h : l ≠ []) :
    dropFinalEmpty (p :: l) = p :: dropFinalEmpty l := by
  rcases l with _ | ⟨x, xs⟩
  · exact absurd rfl h
  · simp only [dropFinalEmpty, List.getLast?_cons_cons]
    by_cases he : (x :: xs).getLast? = some []
    · simp [he, List.dropLast]
    · simp [he]

theorem scan_eq_decomp : ∀ (bs p : Bytes), (10 : Nat) ∉ p →
    (scanBytes p bs).1 ++ finishLines (scanBytes p bs).2
      = (dropFinalEmpty (splitNL (p ++ bs))).map dropCR := by
  intro bs
  induction bs with
  | nil =>
    intro p hp
    by_cases hpe : p = []
    · simp [scanBytes, finishLines, hpe, splitNL, dropFinalEmpty]
    · simp [scanBytes, finishLines, hpe, splitNL_no_newline p hp, dropFinalEmpty,
        List.getLast?_singleton, hpe]
  | cons b bs ih =>
    intro p hp
    by_cases hb : b = 10
    · subst hb
      rw [splitNL_newline bs p hp,
          dropFinalEmpty_cons p (splitNL bs) (splitNL_ne_nil bs)]
      have h2 := ih [] (by simp)
      rw [List.nil_append] at h2
      simp [scanBytes, h2]
    · have hpb : (10 : Nat) ∉ p ++ [b] := by
        intro hm
        rcases List.mem_append.mp hm with hm1 | hm2
        · exact hp hm1
        · exact hb ((List.mem_singleton.mp hm2).symm)
      have := ih (p ++ [b]) hpb
      simp only [scanBytes, if_neg hb]
      rw [this]
      simp


theorem scannerLines_eq (chunks : List Bytes) :
    scannerLines chunks = (newlineDecomp chunks.flatten).map dropCR := by
  unfold scannerLines newlineDecomp
  rw [feedChunks_flatten chunks []]
  have h := scan_eq_decomp chunks.flatten [] (by simp)
  rw [List.nil_append] at h
  exact h

theorem appendLines_messages (clock : Nat → Int) :
    ∀ (ts : List Bytes) (w : W),
      (appendLines clock w ts).buf.map (fun e => e.message)
        = w.buf.map (fun e => e.message) ++ ts.filter (fun l => l ≠ []) := by
  intro ts
  induction ts with
  | nil => intro w; simp [appendLines]
  | cons t ts ih =>
    intro w
    by_cases ht : t = []
    · simp [appendLines, appendEvent, ht, ih]
    · simp [appendLines, appendEvent, ht, ih]

/-- C5 (amended): for every sequence of `Write` chunks, the ordered list of
messages appended to the buffer equals the newline-delimited decomposition
of the concatenation of all written bytes **with a trailing carriage
return stripped from each line and with empty lines removed** (a final
line without a trailing newline still yields a final event); the produced
lines are independent of how the bytes are chunked across writes (second
conjunct). -/
theorem c5_lines_decomposition (clock : Nat → Int) (w : W) (chunks : List Bytes) :
    (readLinesInto clock w chunks).buf.map (fun e => e.message)
      = w.buf.map (fun e => e.message)
        ++ ((newlineDecomp chunks.flatten).map dropCR).filter (fun l => l ≠ []) ∧
    scannerLines chunks = scannerLines [chunks.flatten] := by
  constructor
  · unfold readLinesInto
    rw [appendLines_messages clock (scannerLines chunks) w, scannerLines_eq]
  · rw [scannerLines_eq, scannerLines_eq]
    simp

/-- C5 counterexample: the claim as stated says the appended events equal
the newline-delimited decomposition itself.  For the input "a\n\nb\n" the
decomposition is ["a", "", "b"] but `appendEvent` silently drops the empty
line, so only ["a", "b"] is appended. -/
theorem c5_empty_line_counterexample :
    (readLinesInto (fun _ => 0) emptyW [[97, 10, 10, 98, 10]]).buf.map
        (fun e => e.message) = [[97], [98]] ∧
    newlineDecomp [97, 10, 10, 98, 10] = [[97], [], [98]] ∧
    ([[97], [98]] : List Bytes) ≠ [[97], [], [98]] := by decide

/-! ### Claim C8 -/

/-- C8: the claim says a second `Close` after a successful first `Close`
returns immediately with no additional delivery calls.  In the code the
second `Close` blocks forever: `stop` sends on the unbuffered `closed`
channel, whose only receiver (`periodicFlush`) already exited during the
first `Close`.  The first call returns; the second call blocks with the
writer state untouched. -/
theorem c8_second_close_blocks (client : Nat → PutResult) (w : W) :
    (∃ e, (closeOnce client ⟨w, true, some none⟩).1 = CloseOutcome.returned e) ∧
    (closeOnce client (closeOnce client ⟨w, true, some none⟩).2).1
      = CloseOutcome.blocked ∧
    (closeOnce client (closeOnce client ⟨w, true, some none⟩).2).2
      = (closeOnce client ⟨w, true, some none⟩).2 := by
  have h1 : closeOnce client ⟨w, true, some none⟩
      = (CloseOutcome.returned ((flushAll client w).getD (w, none, [])).2.1,
         ⟨((flushAll client w).getD (w, none, [])).1, false, none⟩) := by
    simp [closeOnce]
  refine ⟨⟨((flushAll client w).getD (w, none, [])).2.1, by rw [h1]⟩, ?_, ?_⟩ <;>
    rw [h1] <;> simp [closeOnce]

end Cwlog
